import Mathlib

/-!
Verification of the YouTube channel restricted-videos tool scripts.

This file gives a shallow embedding of the two Python source files
(diff_json.py and html_youtube_parser.py) and proves the frozen claims
about them.

Modelling conventions:
  - Python values produced by json.loads are modelled by the inductive
    type JVal; JSON numbers are modelled as integers (no claim involves
    floats).
  - Python exceptions (TypeError, KeyError, AttributeError, IndexError,
    unhashable-type errors) are modelled with Except; a raised exception
    is an error value, catching it is a match on the error constructor.
  - I/O (file reading, printing) is modelled by explicit data: a missing
    file is a none input, printed error reports and written output files
    are flags in a result record.
-/

/-- Python values as produced by json.loads: null, booleans, numbers
(modelled as integers), strings, lists and dicts (association lists in
insertion order; lookup takes the last binding, as a later duplicate key
in JSON source overwrites an earlier one). -/
inductive JVal where
  | null : JVal
  | bool (b : Bool) : JVal
  | num (n : Int) : JVal
  | str (s : String) : JVal
  | arr (xs : List JVal) : JVal
  | obj (fields : List (String × JVal)) : JVal

/-- Dict lookup with the Python duplicate-key semantics: the last binding
of a key wins (json.loads builds the dict by successive assignment). -/
def lookupLast (fs : List (String × JVal)) (k : String) : Option JVal :=
  match fs with
  | [] => none
  | (k2, v) :: rest =>
    match lookupLast rest k with
    | some v2 => some v2
    | none => if k2 = k then some v else none

/-- Python truthiness of a JVal (bool(x) for json-produced values). -/
def truthy : JVal → Bool
  | .null => false
  | .bool b => b
  | .num n => n != 0
  | .str s => s != ""
  | .arr xs => !xs.isEmpty
  | .obj fs => !fs.isEmpty

/-- Whether a json-produced Python value is hashable (may be put in a
set): lists and dicts are unhashable, everything else is. -/
def isHashable : JVal → Bool
  | .arr _ => false
  | .obj _ => false
  | _ => true

/-- Python equality between a value and a string: only a string equal
to it compares equal; containers and other scalars compare unequal. -/
def pyEqStr (v : JVal) (k : String) : Bool :=
  match v with
  | .str s => s == k
  | _ => false

/-- Python equality restricted to hashable json scalars (the only
values this development ever stores in a set).  Mirrors that the booleans of Python are integers: True == 1 and False == 0. -/
def pyEqScalar (a b : JVal) : Bool :=
  match a, b with
  | .null, .null => true
  | .bool x, .bool y => x == y
  | .bool x, .num y => (if x then (1 : Int) else 0) == y
  | .num x, .bool y => x == (if y then (1 : Int) else 0)
  | .num x, .num y => x == y
  | .str x, .str y => x == y
  | _, _ => false

/-- Whether the char list pre begins the char list l. -/
def isPrefixCharList : List Char → List Char → Bool
  | [], _ => true
  | _ :: _, [] => false
  | c :: cs, d :: ds => c == d && isPrefixCharList cs ds

/-- First index at or after i where needle occurs in the remaining hay
(the recursion argument), mirroring str.find. -/
def findFromAux (needle : List Char) : List Char → Nat → Option Nat
  | [], i => if isPrefixCharList needle [] then some i else none
  | l@(_ :: rest), i =>
    if isPrefixCharList needle l then some i else findFromAux needle rest (i + 1)

/-- str.find(needle, start): first index at or after start where needle
occurs in hay, none when absent. -/
def findFrom (hay needle : List Char) (start : Nat) : Option Nat :=
  findFromAux needle (hay.drop start) start

/-- The membership test s in v for a string s: key membership for a
dict, element membership (by Python equality) for a list, substring
test for a string, and a TypeError (modelled as an error) for the
non-container values. -/
def pyContains (v : JVal) (k : String) : Except Unit Bool :=
  match v with
  | .obj fs => .ok (fs.any (fun p => p.1 == k))
  | .arr xs => .ok (xs.any (fun x => pyEqStr x k))
  | .str s => .ok (findFrom s.toList k.toList 0).isSome
  | _ => .error ()

/-- The subscript v[k] for a string key k: dict lookup (KeyError when
the key is absent), TypeError for every other value. -/
def pySubscript (v : JVal) (k : String) : Except Unit JVal :=
  match v with
  | .obj fs =>
    match lookupLast fs k with
    | some x => .ok x
    | none => .error ()
  | _ => .error ()

/-- Membership in a Python set modelled as a list of scalars, by Python
equality. -/
def setMem (s : List JVal) (v : JVal) : Bool :=
  s.any fun x => pyEqScalar x v

/-- Python set insertion, modelled on a list without equal elements:
append the element unless an equal one is already present.  Only
membership of the result is ever observed (the set is later sorted), so
the order chosen here is immaterial. -/
def setAdd (s : List JVal) (v : JVal) : List JVal :=
  if setMem s v then s else s ++ [v]

/-- The url value of a videos-list entry that is a dict with a url key;
entries of any other shape have none. -/
def entryUrlOpt : JVal → Option JVal
  | .obj vfs => lookupLast vfs "url"
  | _ => none

/-- All url values contributed by a videos list, in order, duplicates
kept. -/
def entryUrls (vids : List JVal) : List JVal :=
  vids.filterMap entryUrlOpt

/-- The loop body of extract_urls (diff_json.py, lines 30-33): for each
entry of the videos list, if it is a dict with a url key, add the url
value to the accumulated set; adding an unhashable value raises a
TypeError (modelled as an error). -/
def extractUrlsLoop (urls : List JVal) : List JVal → Except Unit (List JVal)
  | [] => .ok urls
  | video :: rest =>
    match video with
    | .obj vfs =>
      match lookupLast vfs "url" with
      | some u =>
        if isHashable u then extractUrlsLoop (setAdd urls u) rest
        else .error ()
      | none => extractUrlsLoop urls rest
    | _ => extractUrlsLoop urls rest

/-- extract_urls (diff_json.py, lines 26-35).  Checks videos in data
(which raises a TypeError when data is a number, a bool or null, and
can spuriously succeed on a list or a string), then subscripts data
with videos, and when that value is a list collects the url values of
its dict entries into a set.  Returns the set as a list of pairwise
unequal scalars. -/
def extract_urls (data : JVal) : Except Unit (List JVal) :=
  match pyContains data "videos" with
  | .error e => .error e
  | .ok hasVideos =>
    if hasVideos then
      match pySubscript data "videos" with
      | .error e => .error e
      | .ok dv =>
        match dv with
        | .arr videos => extractUrlsLoop [] videos
        | _ => .ok []
    else .ok []

/-- Whether a JVal is a string. -/
def isStrV : JVal → Bool
  | .str _ => true
  | _ => false

/-- Whether a JVal is a number. -/
def isNumV : JVal → Bool
  | .num _ => true
  | _ => false

/-- The underlying strings of a list of string JVals. -/
def strVals (l : List JVal) : List String :=
  l.filterMap fun v => match v with
    | .str s => some s
    | _ => none

/-- The underlying integers of a list of number JVals. -/
def numVals (l : List JVal) : List Int :=
  l.filterMap fun v => match v with
    | .num n => some n
    | _ => none

/-- The builtin sorted() as used on a list drawn from a set of
json-scalar values: lists of at most one element need no comparison;
all-string and all-number lists sort by the usual order; any other
multi-element list raises a TypeError in Python whenever two elements
of incomparable types are compared (every such list arising here is a
set of scalars of mixed type, so some comparison fails; the bool-int
comparable corner is folded into the error case, no claim reaches
it). -/
def pySorted (l : List JVal) : Except Unit (List JVal) :=
  if l.length ≤ 1 then .ok l
  else if l.all isStrV then
    .ok ((List.insertionSort (fun a b => a ≤ b) (strVals l)).map JVal.str)
  else if l.all isNumV then
    .ok ((List.insertionSort (fun a b => a ≤ b) (numVals l)).map JVal.num)
  else .error ()

/-- The comparison report built by find_url_differences
(diff_json.py, lines 57-64). -/
structure ComparisonReport where
  only_in_file1 : List JVal
  only_in_file2 : List JVal
  common_urls : List JVal
  file1_count : Nat
  file2_count : Nat
  common_count : Nat

/-- find_url_differences (diff_json.py, lines 38-64), on the two
already-loaded JSON values (load_json_file is file I/O performed by the
caller; a failed load short-circuits to no report before this code
runs).  Extracts the two url sets, takes differences and intersection
by Python set operations, sorts each, and reports set cardinalities as
the counts. -/
def find_url_differences (d1 d2 : JVal) : Except Unit ComparisonReport :=
  match extract_urls d1 with
  | .error e => .error e
  | .ok urls1 =>
    match extract_urls d2 with
    | .error e => .error e
    | .ok urls2 =>
      match pySorted (urls1.filter fun u => !(setMem urls2 u)) with
      | .error e => .error e
      | .ok s1 =>
        match pySorted (urls2.filter fun u => !(setMem urls1 u)) with
        | .error e => .error e
        | .ok s2 =>
          match pySorted (urls1.filter fun u => setMem urls2 u) with
          | .error e => .error e
          | .ok sc =>
            .ok { only_in_file1 := s1
                  only_in_file2 := s2
                  common_urls := sc
                  file1_count := urls1.length
                  file2_count := urls2.length
                  common_count := (urls1.filter fun u => setMem urls2 u).length }

/-- The videos list of a value, when the value is a dict whose videos
key holds a list. -/
def videosList : JVal → Option (List JVal)
  | .obj fs =>
    match lookupLast fs "videos" with
    | some (.arr vids) => some vids
    | _ => none
  | _ => none

/-- The url strings of a VideoCollection value, in order, duplicates
kept: the string url values of the dict entries of its videos list. -/
def collectionUrls (d : JVal) : List String :=
  match videosList d with
  | some vids => strVals (entryUrls vids)
  | none => []

/-- The url set of a collection: the deduplicated set of its url
strings. -/
def urlSet (d : JVal) : Finset String :=
  (collectionUrls d).toFinset

/-- Whether a value is a well-formed VideoCollection: a dict whose
videos key holds a list, every entry of which is a dict with a string
url value. -/
def isVideoCollection : JVal → Bool
  | .obj fs =>
    match lookupLast fs "videos" with
    | some (.arr vids) =>
      vids.all fun v => match v with
        | .obj vfs =>
          match lookupLast vfs "url" with
          | some (.str _) => true
          | _ => false
        | _ => false
    | _ => false
  | _ => false

/-- One attempted match, at the head of the list, of the regex pattern
that finds a v query parameter: a question mark or ampersand, then v=,
then one or more characters other than an ampersand; on success the
captured group is the maximal run of non-ampersand characters after
the v=. -/
def vParamHead : List Char → Option (List Char)
  | c :: c1 :: c2 :: tail =>
    if (c = '?' ∨ c = '&') ∧ c1 = 'v' ∧ c2 = '=' then
      match tail.takeWhile (fun x => x ≠ '&') with
      | [] => none
      | d :: ds => some (d :: ds)
    else none
  | _ => none

/-- The leftmost-match scan of re.search: attempt the pattern at every
position from the left, taking the first success. -/
def matchVparam : List Char → Option (List Char)
  | [] => none
  | c :: rest =>
    match vParamHead (c :: rest) with
    | some ids => some ids
    | none => matchVparam rest

/-- video_id_from_url (html_youtube_parser.py, lines 239-242):
re.search of a v parameter in the url, giving the captured id. -/
def video_id_from_url (url : String) : Option String :=
  (matchVparam url.toList).map fun cs => String.mk cs

/-- The fixed canonical watch-url prefix used by the normalizer. -/
def watchUrlHead : String := "https://www.youtube.com/watch?v="

/-- clean_youtube_url (html_youtube_parser.py, lines 169-191): empty
input is returned as is; a url with an extractable video id is rebuilt
as the canonical prefix plus the id; otherwise the url is truncated at
its first ampersand when it has one (str.split on the ampersand, first
piece) and returned unchanged when it has none. -/
def clean_youtube_url (url : String) : String :=
  if url = "" then url
  else
    match video_id_from_url url with
    | some vid => watchUrlHead ++ vid
    | none =>
      if '&' ∈ url.toList then String.mk (url.toList.takeWhile (fun c => c ≠ '&'))
      else url

/-- A video record { url: ... } produced by the extractor. -/
structure VideoInfo where
  url : String
deriving DecidableEq

/-- Python str() of a json scalar as interpolated by an f-string (the
container cases use the list/dict repr; no claim evaluates them, and
string values inside a repr are shown quoted without escape
handling). -/
def pyStrOf : JVal → String
  | .str s => s
  | .num n => toString n
  | .bool b => if b then "True" else "False"
  | .null => "None"
  | .arr _ => "[...]"
  | .obj _ => "\x7b...\x7d"

/-- extract_video_info (html_youtube_parser.py, lines 144-166): read
videoId from the renderer dict with empty-string default, build the
watch url when the id is truthy, return none otherwise.  A non-dict
argument raises inside the local try and yields none as well. -/
def extract_video_info (video_renderer : JVal) : Option VideoInfo :=
  match video_renderer with
  | .obj fs =>
    let video_id := (lookupLast fs "videoId").getD (JVal.str "")
    if truthy video_id then some ⟨"https://www.youtube.com/watch?v=" ++ pyStrOf video_id⟩
    else none
  | _ => none

/-- Iteration of a Python for-loop over a json value: the elements of a
list, the one-character strings of a string, the keys of a dict (in
first-insertion order), and a TypeError for the other values. -/
def pyIter : JVal → Except Unit (List JVal)
  | .arr xs => .ok xs
  | .str s => .ok (s.toList.map fun c => JVal.str (String.mk [c]))
  | .obj fs => .ok ((objKeysFirst fs).map JVal.str)
  | _ => .error ()
where
  objKeysFirst : List (String × JVal) → List String
    | [] => []
    | (k, _) :: rest => k :: (objKeysFirst rest).filter (fun k2 => k2 ≠ k)

/-- The subscript v[0]: first element of a list (IndexError when
empty), first character of a string (IndexError when empty), KeyError
for a dict with string keys, TypeError otherwise. -/
def pySubscriptZero : JVal → Except Unit JVal
  | .arr (x :: _) => .ok x
  | .arr [] => .error ()
  | .str s =>
    match s.toList with
    | [] => .error ()
    | c :: _ => .ok (.str (String.mk [c]))
  | _ => .error ()

/-- The walk state: the videos accumulated so far.  An error value
carries the accumulation at the moment the exception was raised,
because the Python list mutated in place survives the raise and is
what the top-level except handler returns. -/
abbrev WalkResult := Except (List VideoInfo) (List VideoInfo)

/-- The inner items loop of extract_videos_from_json
(html_youtube_parser.py, lines 130-135): per item read
gridVideoRenderer with a dict default, and when truthy append the
video info if one is extracted.  A non-dict item raises
AttributeError on the .get call. -/
def processItems (videos : List VideoInfo) : List JVal → WalkResult
  | [] => .ok videos
  | item :: rest =>
    match item with
    | .obj fs =>
      let vr := (lookupLast fs "gridVideoRenderer").getD (.obj [])
      if truthy vr then
        match extract_video_info vr with
        | some vi => processItems (videos ++ [vi]) rest
        | none => processItems videos rest
      else processItems videos rest
    | _ => .error videos

/-- The contents loop of extract_videos_from_json
(html_youtube_parser.py, lines 125-135): per content item descend
itemSectionRenderer, then contents[0].gridRenderer.items with dict/list
defaults, iterate the items; every .get on a non-dict raises
AttributeError, the [0] subscript raises on an empty or non-indexable
value, and a non-iterable items value raises TypeError. -/
def processContents (videos : List VideoInfo) : List JVal → WalkResult
  | [] => .ok videos
  | ci :: rest =>
    match ci with
    | .obj cifs =>
      match (lookupLast cifs "itemSectionRenderer").getD (.obj []) with
      | .obj isfs =>
        match pySubscriptZero ((lookupLast isfs "contents").getD (.arr [.obj []])) with
        | .error _ => .error videos
        | .ok first =>
          match first with
          | .obj ffs =>
            match (lookupLast ffs "gridRenderer").getD (.obj []) with
            | .obj gfs =>
              match pyIter ((lookupLast gfs "items").getD (.arr [])) with
              | .error _ => .error videos
              | .ok its =>
                match processItems videos its with
                | .ok v2 => processContents v2 rest
                | .error v2 => .error v2
            | _ => .error videos
          | _ => .error videos
      | _ => .error videos
    | _ => .error videos

/-- The body of the selected Videos tab (html_youtube_parser.py, lines
121-135): descend content.sectionListRenderer.contents with defaults
and run the contents loop; a non-dict at either .get receiver raises
AttributeError, a non-iterable contents raises TypeError. -/
def processVideosTab (videos : List VideoInfo) (tfs : List (String × JVal)) : WalkResult :=
  match (lookupLast tfs "content").getD (.obj []) with
  | .obj cfs =>
    match (lookupLast cfs "sectionListRenderer").getD (.obj []) with
    | .obj sfs =>
      match pyIter ((lookupLast sfs "contents").getD (.arr [])) with
      | .error _ => .error videos
      | .ok cis => processContents videos cis
    | _ => .error videos
  | _ => .error videos

/-- The tabs loop of extract_videos_from_json (html_youtube_parser.py,
lines 118-136): per tab read tabRenderer with a dict default and
compare its title to the exact string Videos; the first matching tab is
processed and the loop breaks; a non-dict tab or tabRenderer raises
AttributeError on the .get call. -/
def processTabs (videos : List VideoInfo) : List JVal → WalkResult
  | [] => .ok videos
  | tab :: rest =>
    match tab with
    | .obj fs =>
      match (lookupLast fs "tabRenderer").getD (.obj []) with
      | .obj tfs =>
        if pyEqStr ((lookupLast tfs "title").getD .null) "Videos" then
          processVideosTab videos tfs
        else processTabs videos rest
      | _ => .error videos
    | _ => .error videos

/-- One candidate key path: successive subscripts from the root; a
KeyError or TypeError at any step fails the path (the inner try of
html_youtube_parser.py, lines 106-112, catches exactly those, and no
other exception can arise from the subscripts). -/
def tryPath (data : JVal) (path : List String) : Option JVal :=
  path.foldlM (fun cur k => (pySubscript cur k).toOption) data

/-- The candidate-path loop (html_youtube_parser.py, lines 98-112):
the first of the two fixed paths that resolves gives the tabs value. -/
def findTabs (data : JVal) : Option JVal :=
  (tryPath data ["twoColumnBrowseResultsRenderer", "tabs"]).orElse fun _ =>
    tryPath data ["contents", "twoColumnBrowseResultsRenderer", "tabs"]

/-- The body of extract_videos_from_json inside its top-level try
(html_youtube_parser.py, lines 93-136).  The initial
data.get(contents) raises AttributeError when data is not a dict; an
unresolved or falsy tabs value returns the (empty) accumulation; a
truthy non-iterable tabs raises TypeError in the for statement. -/
def extractVideosInner (data : JVal) : WalkResult :=
  match data with
  | .obj _ =>
    match findTabs data with
    | none => .ok []
    | some tabs =>
      if truthy tabs then
        match pyIter tabs with
        | .error _ => .error []
        | .ok ts => processTabs [] ts
      else .ok []
  | _ => .error []

/-- extract_videos_from_json (html_youtube_parser.py, lines 81-141):
the walk wrapped in the top-level try; the except handler prints and
returns the list accumulated so far. -/
def extract_videos_from_json (data : JVal) : List VideoInfo :=
  match extractVideosInner data with
  | .ok v => v
  | .error v => v

/-- The dedup loop at the end of extract_videos_from_html
(html_youtube_parser.py, lines 229-234): keep a video when its url has
not been seen, first occurrence wins. -/
def dedupByUrl (seen : List String) : List VideoInfo → List VideoInfo
  | [] => []
  | v :: rest =>
    if v.url ∈ seen then dedupByUrl seen rest
    else v :: dedupByUrl (v.url :: seen) rest

/-- The anchor loop of extract_videos_from_html (html_youtube_parser.py,
lines 204-226), on the sequence of href attribute values of the anchors
of the page (none for an anchor without the attribute): the video list
before deduplication.  find_all filters to
anchors whose href matches the watch-path regex (a substring test);
each href is made absolute against the fixed host when relative,
normalized, and kept when non-empty with an extractable video id;
finally duplicates are removed keeping the first occurrence. -/
def anchorVideos (anchors : List (Option String)) : List VideoInfo :=
  let hrefs := (anchors.filterMap id).filter fun h =>
    (findFrom h.toList "/watch?v=".toList 0).isSome
  hrefs.foldl (fun acc href =>
    let url0 := if isPrefixCharList "/".toList href.toList then "https://www.youtube.com" ++ href else href
    let url := clean_youtube_url url0
    if url != "" && (video_id_from_url url).isSome then acc ++ [VideoInfo.mk url]
    else acc) []

/-- The whole of extract_videos_from_html: the anchor loop followed by
the dedup loop. -/
def extract_videos_from_html (anchors : List (Option String)) : List VideoInfo :=
  dedupByUrl [] (anchorVideos anchors)

/-- Whitespace skipping for the json text model. -/
def skipWs : List Char → List Char
  | [] => []
  | c :: rest =>
    if c = ' ' ∨ c = '\t' ∨ c = '\n' ∨ c = '\r' then skipWs rest else c :: rest

/-- A json string body up to the closing quote.  Escape sequences are
outside the modelled fragment and fail the parse (conservatively; no
claim depends on them). -/
def parseJStr : List Char → Option (String × List Char)
  | [] => none
  | c :: rest =>
    if c = '"' then some ("", rest)
    else if c = '\\' then none
    else (parseJStr rest).map fun p => (String.mk [c] ++ p.1, p.2)

/-- Digits of a json integer literal. -/
def parseDigits (acc : Nat) : List Char → Nat × List Char
  | [] => (acc, [])
  | c :: rest =>
    if c.isDigit then parseDigits (acc * 10 + (c.toNat - 48)) rest
    else (acc, c :: rest)

/-- Integer literal with optional minus sign; requires at least one
digit. -/
def parseJNum : List Char → Option (Int × List Char)
  | [] => none
  | c :: rest =>
    if c = '-' then
      match rest with
      | d :: _ =>
        if d.isDigit then
          let p := parseDigits 0 rest
          some (-(p.1 : Int), p.2)
        else none
      | [] => none
    else if c.isDigit then
      let p := parseDigits 0 (c :: rest)
      some ((p.1 : Int), p.2)
    else none

mutual

/-- Recursive-descent model of json.loads on the fragment used by the
claims (objects, arrays, double-quoted strings without escapes,
integers, true, false, null); the fuel bounds nesting depth and is
chosen larger than the input length by the caller. -/
def parseJVal : Nat → List Char → Option (JVal × List Char)
  | 0, _ => none
  | fuel + 1, cs =>
    match skipWs cs with
    | 't' :: 'r' :: 'u' :: 'e' :: rest => some (.bool true, rest)
    | 'f' :: 'a' :: 'l' :: 's' :: 'e' :: rest => some (.bool false, rest)
    | 'n' :: 'u' :: 'l' :: 'l' :: rest => some (.null, rest)
    | '"' :: rest => (parseJStr rest).map fun p => (.str p.1, p.2)
    | '\x7b' :: rest =>
      (match skipWs rest with
       | '\x7d' :: rest2 => some (.obj [], rest2)
       | rest2 => (parseJMembers fuel rest2).map fun p => (.obj p.1, p.2))
    | '[' :: rest =>
      (match skipWs rest with
       | ']' :: rest2 => some (.arr [], rest2)
       | rest2 => (parseJItems fuel rest2).map fun p => (.arr p.1, p.2))
    | other => (parseJNum other).map fun p => (.num p.1, p.2)

/-- Comma-separated object members after the opening brace of a
nonempty object. -/
def parseJMembers : Nat → List Char → Option (List (String × JVal) × List Char)
  | 0, _ => none
  | fuel + 1, cs =>
    match skipWs cs with
    | '"' :: rest =>
      match parseJStr rest with
      | none => none
      | some (k, rest2) =>
        match skipWs rest2 with
        | ':' :: rest3 =>
          match parseJVal fuel rest3 with
          | none => none
          | some (v, rest4) =>
            match skipWs rest4 with
            | ',' :: rest5 =>
              (parseJMembers fuel rest5).map fun p => ((k, v) :: p.1, p.2)
            | '\x7d' :: rest5 => some ([(k, v)], rest5)
            | _ => none
        | _ => none
    | _ => none

/-- Comma-separated array items after the opening bracket of a
nonempty array. -/
def parseJItems : Nat → List Char → Option (List JVal × List Char)
  | 0, _ => none
  | fuel + 1, cs =>
    match parseJVal fuel cs with
    | none => none
    | some (v, rest) =>
      match skipWs rest with
      | ',' :: rest2 => (parseJItems fuel rest2).map fun p => (v :: p.1, p.2)
      | ']' :: rest2 => some ([v], rest2)
      | _ => none

end

/-- json.loads on the modelled fragment: parse one value and require
only whitespace after it. -/
def json_loads (s : String) : Option JVal :=
  match parseJVal (s.length + 1) s.toList with
  | some (v, rest) => if skipWs rest = [] then some v else none
  | none => none

/-- The assignment marker searched for in script text. -/
def ytMarker : String := "var ytInitialData = "

/-- The blob isolation of parse_youtube_html (html_youtube_parser.py,
lines 50-64): when the script text contains ytInitialData, find the
assignment marker, then the first closing-brace-semicolon after it, and
cut out the text from past the marker through the closing brace.  None
when any of the three searches fails. -/
def extractBlob (s : String) : Option String :=
  if (findFrom s.toList "ytInitialData".toList 0).isSome then
    match findFrom s.toList ytMarker.toList 0 with
    | none => none
    | some i =>
      let start := i + ytMarker.length
      match findFrom s.toList "\x7d;".toList start with
      | none => none
      | some e => some (String.mk (((s.toList).drop start).take (e + 1 - start)))
  else none

/-- One script tag of the loop in parse_youtube_html (lines 49-72):
isolate the blob, parse it, extract videos; the script contributes a
result only when all three steps succeed and the video list is
nonempty, and every failure (no marker, no end marker, a
JSONDecodeError, an empty extraction) falls through to the next
script. -/
def tryScript (s : String) : Option (List VideoInfo) :=
  match extractBlob s with
  | none => none
  | some j =>
    match json_loads j with
    | none => none
    | some data =>
      let videos := extract_videos_from_json data
      if videos.isEmpty then none else some videos

/-- The script loop of parse_youtube_html: scripts without text
(script.string is None) are skipped, the first script yielding videos
wins, and none means every script fell through. -/
def scanScripts : List (Option String) → Option (List VideoInfo)
  | [] => none
  | none :: rest => scanScripts rest
  | some s :: rest =>
    match tryScript s with
    | some vs => some vs
    | none => scanScripts rest

/-- A parsed page as seen by parse_youtube_html: the text content of
its script tags (none when a script tag has no string) and the href
attributes of its anchor tags (none when an anchor has no href). -/
structure Page where
  scripts : List (Option String)
  anchors : List (Option String)

/-- parse_youtube_html on a successfully read and parsed page
(html_youtube_parser.py, lines 44-78): method 1 scans the scripts for
a usable ytInitialData blob; when no script yields videos, method 2
falls back to scanning anchor tags. -/
def parse_youtube_html (page : Page) : List VideoInfo :=
  match scanScripts page.scripts with
  | some vs => vs
  | none => extract_videos_from_html page.anchors

/-- Outcome of one extractor run: the process exit status, whether the
output file was written, and whether an error message was printed. -/
structure RunResult where
  exitCode : Nat
  outputWritten : Bool
  errorReported : Bool
deriving DecidableEq

/-- parse_youtube_html including its file-reading prologue
(html_youtube_parser.py, lines 34-42): a missing input file (the none
case) prints the file-not-found message and returns an empty list;
otherwise the parsed page is processed.  The flag records whether the
error message was printed. -/
def parseYoutubeHtmlRun : Option Page → Bool × List VideoInfo
  | none => (true, [])
  | some page => (false, parse_youtube_html page)

/-- main of html_youtube_parser.py (lines 245-278) on an input that is
either a missing file (none) or a parsed page.  When no videos are
found it prints a message and returns; otherwise it writes the output
file (assumed writable).  main always returns None and the module-level
call does not wrap it in sys.exit, so the process exit status is 0 on
every path that reaches main. -/
def extractorMain (input : Option Page) : RunResult :=
  let r := parseYoutubeHtmlRun input
  if r.2.isEmpty then { exitCode := 0, outputWritten := false, errorReported := r.1 }
  else { exitCode := 0, outputWritten := true, errorReported := r.1 }

/-- The canonical sorted enumeration of a finite set of url strings,
as JVal strings: what each report field of find_url_differences is
proved to equal for well-formed collections. -/
def sortedStrUrls (S : Finset String) : List JVal :=
  (Finset.sort (fun a b => a ≤ b) S).map JVal.str

/-- A sample VideoCollection with urls A and B, for witnesses. -/
def sampleColl1 : JVal :=
  .obj [("videos", .arr [.obj [("url", .str "A")], .obj [("url", .str "B")]])]

/-- A sample VideoCollection with urls B and C, for witnesses. -/
def sampleColl2 : JVal :=
  .obj [("videos", .arr [.obj [("url", .str "B")], .obj [("url", .str "C")]])]

/-- A mapping without a videos key, for the C10 witness. -/
def noVideosObj : JVal := .obj [("other", JVal.null)]

/-- The videos list of mixedVideosObj: a non-mapping entry followed by
a url-carrying one. -/
def mixedVideosList : List JVal := [JVal.num 7, JVal.obj [("url", JVal.str "A")]]

/-- A mapping whose videos list mixes a non-mapping entry with a
url-carrying one, for the C10 witness. -/
def mixedVideosObj : JVal := .obj [("videos", .arr mixedVideosList)]

/-- A tab whose title has the wrong casing, for the C9 witness. -/
def lowerTab : JVal := .obj [("tabRenderer", .obj [("title", .str "videos")])]

/-- The tabRenderer fields of a correctly titled tab, for the C9
witness. -/
def videosTabFields : List (String × JVal) := [("title", .str "Videos")]

/-- A ytInitialData value whose Videos tab yields one video from its
first content item and then raises on the second, non-dict content
item, so that the accumulated list of the walker at the exception is nonempty. -/
def c5data : JVal :=
  .obj [("contents", .obj [("twoColumnBrowseResultsRenderer", .obj [("tabs", .arr [
    .obj [("tabRenderer", .obj [("title", .str "Videos"),
      ("content", .obj [("sectionListRenderer", .obj [("contents", .arr [
        .obj [("itemSectionRenderer", .obj [("contents", .arr [
          .obj [("gridRenderer", .obj [("items", .arr [
            .obj [("gridVideoRenderer", .obj [("videoId", .str "abc")])]])])]])])],
        .num 123])])])])]])])])]

/-- A script whose ytInitialData assignment holds text that is not
valid JSON, for the C8 witness. -/
def badScript : String := "var ytInitialData = \x7bbroken\x7d;"

/-- A one-script page whose only blob fails to parse, for the C8
witness. -/
def c8page : Page := ⟨[some badScript], [some "/watch?v=Q"]⟩

/-! Lemmas about the v-parameter regex model. -/

theorem matchVparam_cons_eq (c : Char) (rest : List Char) :
    matchVparam (c :: rest) =
      match vParamHead (c :: rest) with
      | some ids => some ids
      | none => matchVparam rest := rfl

theorem vParamHead_short (l : List Char) (h : l.length < 3) : vParamHead l = none := by
  rcases l with _ | ⟨a, _ | ⟨b, _ | ⟨c, t⟩⟩⟩
  · rfl
  · rfl
  · rfl
  · simp at h
    omega

theorem vParamHead_not_sep (c : Char) (rest : List Char) (h1 : ¬ c = '?') (h2 : ¬ c = '&') :
    vParamHead (c :: rest) = none := by
  rcases rest with _ | ⟨c1, _ | ⟨c2, tail⟩⟩
  · rfl
  · rfl
  · simp [vParamHead, h1, h2]

theorem matchVparam_skip {c : Char} (rest : List Char) (h1 : ¬ c = '?') (h2 : ¬ c = '&') :
    matchVparam (c :: rest) = matchVparam rest := by
  rw [matchVparam_cons_eq, vParamHead_not_sep c rest h1 h2]

theorem matchVparam_skipAll {Q : List Char} (h : ∀ c ∈ Q, ¬ c = '?' ∧ ¬ c = '&')
    (rest : List Char) : matchVparam (Q ++ rest) = matchVparam rest := by
  induction Q with
  | nil => rfl
  | cons c q ih =>
    have hc := h c (by simp)
    rw [List.cons_append, matchVparam_skip _ hc.1 hc.2]
    exact ih fun d hd => h d (by simp [hd])

theorem vParamHead_some_props : ∀ cs ids, vParamHead cs = some ids →
    ids ≠ [] ∧ ∀ c ∈ ids, c ≠ '&' := by
  intro cs ids h
  rcases cs with _ | ⟨c, _ | ⟨c1, _ | ⟨c2, tail⟩⟩⟩
  · cases h
  · cases h
  · cases h
  · rw [vParamHead] at h
    by_cases hcond : (c = '?' ∨ c = '&') ∧ c1 = 'v' ∧ c2 = '='
    · rw [if_pos hcond] at h
      rcases htw : tail.takeWhile (fun x => x ≠ '&') with _ | ⟨d, ds⟩
      · rw [htw] at h; cases h
      · rw [htw] at h
        injection h with h'
        subst h'
        refine ⟨by simp, ?_⟩
        intro x hx
        have hx2 : x ∈ tail.takeWhile (fun y => y ≠ '&') := htw ▸ hx
        simpa using List.mem_takeWhile_imp hx2
    · rw [if_neg hcond] at h; cases h

theorem matchVparam_some_props : ∀ cs ids, matchVparam cs = some ids →
    ids ≠ [] ∧ ∀ c ∈ ids, c ≠ '&' := by
  intro cs
  induction cs with
  | nil => intro ids h; cases h
  | cons c rest ih =>
    intro ids h
    rw [matchVparam_cons_eq] at h
    rcases hv : vParamHead (c :: rest) with _ | ids2
    · rw [hv] at h
      exact ih ids h
    · rw [hv] at h
      injection h with h'
      subst h'
      exact vParamHead_some_props _ _ hv

theorem vParamHead_takeWhile_none : ∀ cs, vParamHead cs = none →
    vParamHead (cs.takeWhile fun x => x ≠ '&') = none := by
  intro cs h
  rcases cs with _ | ⟨c, _ | ⟨c1, _ | ⟨c2, tail⟩⟩⟩
  · rfl
  · exact vParamHead_short _ (Nat.lt_of_le_of_lt (List.takeWhile_prefix _).length_le (by simp))
  · exact vParamHead_short _ (Nat.lt_of_le_of_lt (List.takeWhile_prefix _).length_le (by simp))
  · by_cases hc : c = '&'
    · rw [List.takeWhile_cons_of_neg (by simp [hc])]
      rfl
    · rw [List.takeWhile_cons_of_pos (by simpa using hc)]
      by_cases h1 : c1 = '&'
      · rw [List.takeWhile_cons_of_neg (by simp [h1])]
        exact vParamHead_short _ (by simp)
      · rw [List.takeWhile_cons_of_pos (by simpa using h1)]
        by_cases h2 : c2 = '&'
        · rw [List.takeWhile_cons_of_neg (by simp [h2])]
          exact vParamHead_short _ (by simp)
        · rw [List.takeWhile_cons_of_pos (by simpa using h2)]
          rw [vParamHead] at h ⊢
          by_cases hcond : (c = '?' ∨ c = '&') ∧ c1 = 'v' ∧ c2 = '='
          · rw [if_pos hcond] at h ⊢
            rcases htw : tail.takeWhile (fun x => x ≠ '&') with _ | ⟨d, ds⟩
            · rfl
            · rw [htw] at h
              cases h
          · rw [if_neg hcond] at h ⊢

theorem matchVparam_takeWhile_none : ∀ cs, matchVparam cs = none →
    matchVparam (cs.takeWhile fun x => x ≠ '&') = none := by
  intro cs
  induction cs with
  | nil => intro h; exact h
  | cons c rest ih =>
    intro h
    rw [matchVparam_cons_eq] at h
    rcases hv : vParamHead (c :: rest) with _ | ids
    · rw [hv] at h
      by_cases hc : c = '&'
      · rw [List.takeWhile_cons_of_neg (by simp [hc])]
        rfl
      · have hvt := vParamHead_takeWhile_none (c :: rest) hv
        rw [List.takeWhile_cons_of_pos (by simpa using hc)] at hvt ⊢
        rw [matchVparam_cons_eq, hvt]
        exact ih h
    · rw [hv] at h
      cases h

theorem matchVparam_watch (v : List Char) (hne : v ≠ []) (hamp : ∀ c ∈ v, c ≠ '&') :
    matchVparam (watchUrlHead.toList ++ v) = some v := by
  have hsplit : watchUrlHead.toList = "https://www.youtube.com/watch".toList ++ ['?', 'v', '='] := by
    decide
  rw [hsplit, List.append_assoc,
    matchVparam_skipAll (Q := "https://www.youtube.com/watch".toList) (by decide)]
  rcases v with _ | ⟨d, ds⟩
  · exact absurd rfl hne
  · have htw : (d :: ds).takeWhile (fun x => x ≠ '&') = d :: ds :=
      List.takeWhile_eq_self_iff.mpr (by simpa using hamp)
    have hvp : vParamHead ('?' :: 'v' :: '=' :: d :: ds) = some (d :: ds) := by
      rw [vParamHead, if_pos ⟨Or.inl rfl, rfl, rfl⟩, htw]
    rw [show ((['?', 'v', '='] : List Char) ++ d :: ds) = '?' :: 'v' :: '=' :: d :: ds from rfl,
      matchVparam_cons_eq, hvp]

theorem video_id_watch (ids : List Char) (hne : ids ≠ []) (hamp : ∀ c ∈ ids, c ≠ '&') :
    video_id_from_url (watchUrlHead ++ String.mk ids) = some (String.mk ids) := by
  have h1 : (watchUrlHead ++ String.mk ids).toList = watchUrlHead.toList ++ ids :=
    String.data_append _ _
  rw [video_id_from_url, h1, matchVparam_watch ids hne hamp]
  rfl

theorem watchUrlHead_append_ne_empty (v : String) : watchUrlHead ++ v ≠ "" := by
  intro hcontra
  have hlen := congrArg String.length hcontra
  rw [String.length_append] at hlen
  have h32 : watchUrlHead.length = 32 := rfl
  simp [h32] at hlen

/-- C3: the URL normalizer clean_youtube_url is idempotent: applying it
twice gives the same result as applying it once, for every input
string. -/
theorem C3_clean_youtube_url_idempotent (url : String) :
    clean_youtube_url (clean_youtube_url url) = clean_youtube_url url := by
  by_cases h0 : url = ""
  · subst h0
    rfl
  · cases hm : video_id_from_url url with
    | some vid =>
      have hcl : clean_youtube_url url = watchUrlHead ++ vid := by
        rw [clean_youtube_url, if_neg h0, hm]
      obtain ⟨ids, hids, hmk⟩ :
          ∃ ids, matchVparam url.toList = some ids ∧ String.mk ids = vid := by
        rw [video_id_from_url, Option.map_eq_some'] at hm
        exact hm
      obtain ⟨hne, hamp⟩ := matchVparam_some_props _ _ hids
      have h2 : video_id_from_url (watchUrlHead ++ vid) = some vid := by
        rw [← hmk]
        exact video_id_watch ids hne hamp
      have hfix : clean_youtube_url (watchUrlHead ++ vid) = watchUrlHead ++ vid := by
        rw [clean_youtube_url, if_neg (watchUrlHead_append_ne_empty vid), h2]
      rw [hcl, hfix]
    | none =>
      have hnone : matchVparam url.toList = none := by
        rw [video_id_from_url, Option.map_eq_none'] at hm
        exact hm
      by_cases hamp : '&' ∈ url.toList
      · have hcl : clean_youtube_url url =
            String.mk (url.toList.takeWhile fun c => c ≠ '&') := by
          rw [clean_youtube_url, if_neg h0, hm]
          exact if_pos hamp
        by_cases hr0 : String.mk (url.toList.takeWhile fun c => c ≠ '&') = ""
        · rw [hcl, hr0]
          rfl
        · have hmr : video_id_from_url
              (String.mk (url.toList.takeWhile fun c => c ≠ '&')) = none := by
            rw [video_id_from_url, Option.map_eq_none']
            exact matchVparam_takeWhile_none url.toList hnone
          have hnoamp : ¬ '&' ∈
              (String.mk (url.toList.takeWhile fun c => c ≠ '&')).toList := by
            intro hmem
            have hx : ('&' : Char) ≠ '&' := by
              simpa using List.mem_takeWhile_imp (p := fun c => decide (c ≠ '&')) hmem
            exact hx rfl
          have hfix : clean_youtube_url
              (String.mk (url.toList.takeWhile fun c => c ≠ '&')) =
              String.mk (url.toList.takeWhile fun c => c ≠ '&') := by
            rw [clean_youtube_url, if_neg hr0, hmr]
            exact if_neg hnoamp
          rw [hcl, hfix]
      · have hcl : clean_youtube_url url = url := by
          rw [clean_youtube_url, if_neg h0, hm]
          exact if_neg hamp
        rw [hcl]
        exact hcl

/-- C4 amended: for every input string in which the v-parameter pattern
matches (a question mark or ampersand, then v=, then a nonempty run of
non-ampersand characters), clean_youtube_url rebuilds the URL as
exactly the fixed prefix followed by the captured value, so everything
outside the captured value (query parameters after the next ampersand,
and any fragment following such an ampersand) is discarded; a fragment
inside the captured run survives as part of the id, per the
counterexample. -/
theorem C4_clean_rebuilds_watch_url (url : String) (vid : String)
    (h : video_id_from_url url = some vid) :
    clean_youtube_url url = watchUrlHead ++ vid := by
  have h0 : url ≠ "" := by
    intro hcontra
    subst hcontra
    cases h
  rw [clean_youtube_url, if_neg h0, h]

/-- C4 witness: a concrete url containing a v parameter plus extra
query parameters is rebuilt as the canonical prefix and the id. -/
theorem C4_clean_rebuilds_watch_url_witness :
    video_id_from_url "https://m.youtube.com/watch?v=abc&list=PL9&t=4" = some "abc" ∧
    clean_youtube_url "https://m.youtube.com/watch?v=abc&list=PL9&t=4" =
      watchUrlHead ++ "abc" :=
  ⟨by decide, C4_clean_rebuilds_watch_url _ "abc" (by decide)⟩

/-- C4 counterexample: the claim says any fragment is discarded, but a
fragment that directly follows the v value with no ampersand in
between is kept inside the extracted id, so the rebuilt URL still
contains it. -/
theorem C4_fragment_kept_counterexample :
    clean_youtube_url "https://www.youtube.com/watch?v=abc#frag" =
      "https://www.youtube.com/watch?v=abc#frag" ∧
    clean_youtube_url "https://www.youtube.com/watch?v=abc#frag" ≠
      "https://www.youtube.com/watch?v=abc" := by
  refine ⟨by decide, by decide⟩

/-! Lemmas about the fallback-scanner dedup loop. -/

theorem dedupByUrl_mem_not_seen : ∀ (l : List VideoInfo) (seen : List String),
    ∀ v ∈ dedupByUrl seen l, ¬ v.url ∈ seen := by
  intro l
  induction l with
  | nil => intro seen v hv; cases hv
  | cons x rest ih =>
    intro seen v hv
    simp only [dedupByUrl] at hv
    by_cases hx : x.url ∈ seen
    · rw [if_pos hx] at hv
      exact ih seen v hv
    · rw [if_neg hx] at hv
      rcases List.mem_cons.mp hv with rfl | hv2
      · exact hx
      · have hns := ih (x.url :: seen) v hv2
        intro hs
        exact hns (List.mem_cons_of_mem _ hs)

theorem dedupByUrl_pairwise : ∀ (l : List VideoInfo) (seen : List String),
    (dedupByUrl seen l).Pairwise fun a b => a.url ≠ b.url := by
  intro l
  induction l with
  | nil => intro seen; exact List.Pairwise.nil
  | cons x rest ih =>
    intro seen
    simp only [dedupByUrl]
    by_cases hx : x.url ∈ seen
    · rw [if_pos hx]
      exact ih _
    · rw [if_neg hx]
      refine List.Pairwise.cons ?_ (ih _)
      intro b hb hbad
      have hns := dedupByUrl_mem_not_seen rest (x.url :: seen) b hb
      exact hns (hbad ▸ List.mem_cons_self _ _)

theorem dedupByUrl_sublist : ∀ (l : List VideoInfo) (seen : List String),
    (dedupByUrl seen l).Sublist l := by
  intro l
  induction l with
  | nil => intro seen; exact List.Sublist.refl _
  | cons x rest ih =>
    intro seen
    simp only [dedupByUrl]
    by_cases hx : x.url ∈ seen
    · rw [if_pos hx]
      exact (ih seen).cons _
    · rw [if_neg hx]
      exact (ih _).cons₂ _

/-- C6: the fallback scanner deduplicates by normalized URL while
preserving first-seen order: no two records of its output share a url,
the output is a subsequence of the pre-dedup anchor-loop output (first
occurrences kept in order), and the two-anchor same-id page yields
exactly one record. -/
theorem C6_fallback_scanner_dedups :
    (∀ anchors : List (Option String),
      (extract_videos_from_html anchors).Pairwise fun a b => a.url ≠ b.url) ∧
    (∀ anchors : List (Option String),
      (extract_videos_from_html anchors).Sublist (anchorVideos anchors)) ∧
    extract_videos_from_html [some "/watch?v=X", some "/watch?v=X&list=PL1"] =
      [⟨"https://www.youtube.com/watch?v=X"⟩] :=
  ⟨fun _ => dedupByUrl_pairwise _ _, fun _ => dedupByUrl_sublist _ _, rfl⟩

/-- C9: the tab loop of the walker selects exactly the tab whose
tabRenderer title is the exact, case-sensitive string Videos: a tab
with any other title (for instance the lowercase videos) is skipped
and scanning continues, while a tab titled Videos is processed and the
loop breaks, never examining the remaining tabs. -/
theorem C9_tab_title_exact_match :
    (∀ (videos : List VideoInfo) (fs tfs : List (String × JVal)) (rest : List JVal)
        (t : String),
      lookupLast fs "tabRenderer" = some (.obj tfs) →
      lookupLast tfs "title" = some (.str t) → t ≠ "Videos" →
      processTabs videos (.obj fs :: rest) = processTabs videos rest) ∧
    (∀ (videos : List VideoInfo) (fs tfs : List (String × JVal)) (rest : List JVal),
      lookupLast fs "tabRenderer" = some (.obj tfs) →
      lookupLast tfs "title" = some (.str "Videos") →
      processTabs videos (.obj fs :: rest) = processVideosTab videos tfs) := by
  constructor
  · intro videos fs tfs rest t h1 h2 h3
    simp [processTabs, h1, h2, pyEqStr, h3]
  · intro videos fs tfs rest h1 h2
    simp [processTabs, h1, h2, pyEqStr]

/-- C9 witness: the lowercase-titled tab is skipped; the exactly titled
tab is selected and the loop stops there. -/
theorem C9_tab_title_exact_match_witness :
    processTabs [] [lowerTab] = processTabs [] [] ∧
    processTabs [] [.obj [("tabRenderer", .obj videosTabFields)], lowerTab] =
      processVideosTab [] videosTabFields := by
  constructor
  · exact C9_tab_title_exact_match.1 [] _ _ [] "videos" rfl rfl (by decide)
  · exact C9_tab_title_exact_match.2 [] _ _ [lowerTab] rfl rfl

/-- C5 counterexample: on c5data the walk raises (an AttributeError on
the non-dict second content item) after having accumulated one video,
and extract_videos_from_json returns that nonempty list, not
the empty result the claim requires for every caught exception. -/
theorem C5_nonempty_result_on_error_counterexample :
    extractVideosInner c5data =
      .error [⟨"https://www.youtube.com/watch?v=abc"⟩] ∧
    extract_videos_from_json c5data ≠ [] :=
  ⟨rfl, by decide⟩

/-- C5 amended: extract_videos_from_json is total (never raises) and
every exception of the walk is caught at the top level, returning the
videos accumulated before the raise; structurally unrelated inputs
such as an empty mapping or a list fail before accumulating anything
and so give the empty result. -/
theorem C5_exceptions_return_accumulated :
    (∀ data : JVal,
      extractVideosInner data = .ok (extract_videos_from_json data) ∨
      extractVideosInner data = .error (extract_videos_from_json data)) ∧
    extract_videos_from_json (.obj []) = [] ∧
    (∀ l : List JVal, extract_videos_from_json (.arr l) = []) := by
  refine ⟨?_, rfl, fun l => rfl⟩
  intro data
  cases h : extractVideosInner data with
  | ok v =>
    left
    rw [extract_videos_from_json, h]
  | error v =>
    right
    rw [extract_videos_from_json, h]

/-- C2 counterexample: with a missing input file the extractor process
finishes with exit status 0, not the non-zero status the claim
requires (main returns None and the module-level call is not wrapped
in sys.exit). -/
theorem C2_exit_zero_counterexample : (extractorMain none).exitCode = 0 := rfl

/-- C2 amended: with a missing input file the failure is reported
immediately and no output file is written, but the run terminates with
exit status 0. -/
theorem C2_missing_file_behavior :
    (extractorMain none).errorReported = true ∧
    (extractorMain none).outputWritten = false ∧
    (extractorMain none).exitCode = 0 :=
  ⟨rfl, rfl, rfl⟩

/-! Lemmas about the script-scanning loop. -/

theorem scanScripts_none_of_no_parse :
    ∀ scripts : List (Option String),
      (∀ s j, some s ∈ scripts → extractBlob s = some j → json_loads j = none) →
      scanScripts scripts = none := by
  intro scripts
  induction scripts with
  | nil => intro _; rfl
  | cons o rest ih =>
    intro h
    cases o with
    | none =>
      simp only [scanScripts]
      exact ih fun s j hs hb => h s j (List.mem_cons_of_mem _ hs) hb
    | some s =>
      have hts : tryScript s = none := by
        cases hb : extractBlob s with
        | none => simp only [tryScript, hb]
        | some j =>
          have hl := h s j (List.mem_cons_self _ _) hb
          simp only [tryScript, hb, hl]
      simp only [scanScripts, hts]
      exact ih fun s2 j hs hb => h s2 j (List.mem_cons_of_mem _ hs) hb

/-- C8: a script whose extracted substring fails to parse as JSON is
skipped and scanning continues with the remaining scripts; and when no
script yields a valid parse, parse_youtube_html falls back to the HTML
anchor scan — a total function, so the condition is recoverable and no
error propagates. -/
theorem C8_parse_failure_continues_then_fallback :
    (∀ (s : String) (rest : List (Option String)) (j : String),
      extractBlob s = some j → json_loads j = none →
      scanScripts (some s :: rest) = scanScripts rest) ∧
    (∀ page : Page,
      (∀ s j, some s ∈ page.scripts → extractBlob s = some j → json_loads j = none) →
      parse_youtube_html page = extract_videos_from_html page.anchors) := by
  constructor
  · intro s rest j hb hl
    have hts : tryScript s = none := by
      simp only [tryScript, hb, hl]
    simp only [scanScripts, hts]
  · intro page h
    rw [parse_youtube_html, scanScripts_none_of_no_parse page.scripts h]

/-- C8 witness: the blob of the bad script is extracted but fails to parse,
and the page falls back to the anchor scan. -/
theorem C8_parse_failure_continues_then_fallback_witness :
    extractBlob badScript = some "\x7bbroken\x7d" ∧
    json_loads "\x7bbroken\x7d" = none ∧
    parse_youtube_html c8page = extract_videos_from_html c8page.anchors := by
  refine ⟨by decide, rfl, ?_⟩
  refine C8_parse_failure_continues_then_fallback.2 c8page ?_
  intro s j hs hb
  have hs2 : s = badScript := by simpa [c8page] using hs
  subst hs2
  have hbb : extractBlob badScript = some "\x7bbroken\x7d" := by decide
  rw [hb] at hbb
  injection hbb with hj
  rw [hj]
  rfl

/-! Lemmas about the url-set extraction and the diff report. -/

theorem lookupLast_any (fs : List (String × JVal)) (k : String) :
    fs.any (fun p => p.1 == k) = (lookupLast fs k).isSome := by
  induction fs with
  | nil => rfl
  | cons p rest ih =>
    obtain ⟨k2, v⟩ := p
    simp only [List.any_cons, lookupLast]
    cases h : lookupLast rest k with
    | some v2 =>
      rw [h] at ih
      simp [ih]
    | none =>
      rw [h] at ih
      simp only [ih]
      by_cases hk : k2 = k <;> simp [hk]

theorem pyEqScalar_refl (u : JVal) (h : isHashable u = true) : pyEqScalar u u = true := by
  cases u <;> simp_all [isHashable, pyEqScalar]

theorem setMem_map_str (ss : List String) (t : String) :
    setMem (ss.map JVal.str) (JVal.str t) = decide (t ∈ ss) := by
  induction ss with
  | nil => rfl
  | cons a rest ih =>
    simp only [List.map_cons, setMem, List.any_cons] at *
    rw [ih]
    by_cases h : t = a
    · subst h
      rw [show pyEqScalar (JVal.str t) (JVal.str t) = (t == t) from rfl]
      simp
    · have hb : (a == t) = false := beq_eq_false_iff_ne.mpr fun hc => h hc.symm
      rw [show pyEqScalar (JVal.str a) (JVal.str t) = (a == t) from rfl, hb]
      simp [List.mem_cons, h]

theorem setAdd_map_str (ss : List String) (t : String) :
    setAdd (ss.map JVal.str) (JVal.str t) =
      (if t ∈ ss then ss else ss ++ [t]).map JVal.str := by
  by_cases ht : t ∈ ss
  · rw [setAdd, setMem_map_str, if_pos (by simpa using ht), if_pos ht]
  · rw [setAdd, setMem_map_str, if_neg (by simpa using ht), if_neg ht, List.map_append]
    rfl

theorem entryUrls_cons (v : JVal) (rest : List JVal) :
    entryUrls (v :: rest) = (entryUrlOpt v).toList ++ entryUrls rest := by
  cases h : entryUrlOpt v <;> simp [entryUrls, List.filterMap_cons, h]

theorem extractUrlsLoop_skip (acc : List JVal) (v : JVal) (rest : List JVal)
    (hv : entryUrlOpt v = none) :
    extractUrlsLoop acc (v :: rest) = extractUrlsLoop acc rest := by
  cases v <;> simp_all [extractUrlsLoop, entryUrlOpt]

theorem strVals_map_str (ss : List String) : strVals (ss.map JVal.str) = ss := by
  induction ss with
  | nil => rfl
  | cons a rest ih => simp [strVals, List.filterMap_cons] at *; exact ih

theorem strVals_cons_str (t : String) (l : List JVal) :
    strVals (JVal.str t :: l) = t :: strVals l := by
  simp [strVals, List.filterMap_cons]

theorem filter_map_str_pred (ss : List String) (p : JVal → Bool) (q : String → Bool)
    (h : ∀ s, p (JVal.str s) = q s) :
    (ss.map JVal.str).filter p = (ss.filter q).map JVal.str := by
  rw [List.filter_map]
  congr 1
  exact List.filter_congr fun s _ => h s

theorem filter_toFinset_sdiff (ss1 ss2 : List String) :
    (ss1.filter fun s => !(decide (s ∈ ss2))).toFinset = ss1.toFinset \ ss2.toFinset := by
  ext x
  simp [List.mem_filter]

theorem filter_toFinset_inter (ss1 ss2 : List String) :
    (ss1.filter fun s => decide (s ∈ ss2)).toFinset = ss1.toFinset ∩ ss2.toFinset := by
  ext x
  simp [List.mem_filter]

theorem extractUrlsLoop_strs : ∀ (vids : List JVal) (ss : List String), ss.Nodup →
    (∀ u ∈ entryUrls vids, ∃ t, u = JVal.str t) →
    ∃ ss2 : List String, extractUrlsLoop (ss.map JVal.str) vids = .ok (ss2.map JVal.str) ∧
      ss2.Nodup ∧ ss2.toFinset = ss.toFinset ∪ (strVals (entryUrls vids)).toFinset := by
  intro vids
  induction vids with
  | nil =>
    intro ss hnd _
    exact ⟨ss, rfl, hnd, by simp [entryUrls, strVals]⟩
  | cons v rest ih =>
    intro ss hnd hstr
    cases hu : entryUrlOpt v with
    | none =>
      have hrest : ∀ u2 ∈ entryUrls rest, ∃ t2, u2 = JVal.str t2 := by
        intro u2 h2
        exact hstr u2 (by rw [entryUrls_cons, hu]; simpa using h2)
      obtain ⟨ss2, he, hnd2, hfin⟩ := ih ss hnd hrest
      refine ⟨ss2, ?_, hnd2, ?_⟩
      · rw [extractUrlsLoop_skip _ v rest hu]
        exact he
      · rw [entryUrls_cons, hu]
        simpa using hfin
    | some u =>
      obtain ⟨vfs, hv⟩ : ∃ vfs, v = JVal.obj vfs := by
        cases v <;> simp [entryUrlOpt] at hu ⊢
      subst hv
      have hu2 : lookupLast vfs "url" = some u := by
        simpa [entryUrlOpt] using hu
      have hmem : u ∈ entryUrls (JVal.obj vfs :: rest) := by
        rw [entryUrls_cons, hu]
        simp
      obtain ⟨t, rfl⟩ := hstr u hmem
      have hrest : ∀ u2 ∈ entryUrls rest, ∃ t2, u2 = JVal.str t2 := by
        intro u2 h2
        exact hstr u2 (by rw [entryUrls_cons, hu]; simp [h2])
      have hstep : extractUrlsLoop (ss.map JVal.str) (JVal.obj vfs :: rest) =
          extractUrlsLoop (setAdd (ss.map JVal.str) (JVal.str t)) rest := by
        simp [extractUrlsLoop, hu2, isHashable]
      have hurls : entryUrls (JVal.obj vfs :: rest) = JVal.str t :: entryUrls rest := by
        rw [entryUrls_cons, hu]
        rfl
      by_cases ht : t ∈ ss
      · obtain ⟨ss2, he, hnd2, hfin⟩ := ih ss hnd hrest
        refine ⟨ss2, ?_, hnd2, ?_⟩
        · rw [hstep, setAdd_map_str, if_pos ht]
          exact he
        · rw [hurls, strVals_cons_str, List.toFinset_cons, Finset.union_insert, hfin,
            Finset.insert_eq_self.mpr
              (Finset.mem_union_left _ (List.mem_toFinset.mpr ht))]
      · have hnd3 : (ss ++ [t]).Nodup := by
          simp [List.nodup_append, hnd, ht]
        obtain ⟨ss2, he, hnd2, hfin⟩ := ih (ss ++ [t]) hnd3 hrest
        refine ⟨ss2, ?_, hnd2, ?_⟩
        · rw [hstep, setAdd_map_str, if_neg ht]
          exact he
        · rw [hurls, strVals_cons_str, List.toFinset_cons, Finset.union_insert, hfin,
            List.toFinset_append, Finset.union_assoc, Finset.union_left_comm,
            Finset.insert_eq]
          simp

theorem extractUrlsLoop_hashable : ∀ (vids : List JVal) (acc : List JVal),
    (∀ u ∈ entryUrls vids, isHashable u = true) →
    ∃ us, extractUrlsLoop acc vids = .ok us ∧
      (∀ u ∈ us, u ∈ acc ∨ u ∈ entryUrls vids) ∧
      (∀ a ∈ acc, a ∈ us) ∧
      (∀ u ∈ entryUrls vids, ∃ u2 ∈ us, pyEqScalar u2 u = true) := by
  intro vids
  induction vids with
  | nil =>
    intro acc _
    refine ⟨acc, rfl, fun u hu => Or.inl hu, fun a ha => ha, ?_⟩
    intro u hu
    simp [entryUrls] at hu
  | cons v rest ih =>
    intro acc hhash
    cases hu : entryUrlOpt v with
    | none =>
      have hrest : ∀ u2 ∈ entryUrls rest, isHashable u2 = true := by
        intro u2 h2
        exact hhash u2 (by rw [entryUrls_cons, hu]; simpa using h2)
      obtain ⟨us, he, hsub, hacc, hcover⟩ := ih acc hrest
      refine ⟨us, ?_, ?_, hacc, ?_⟩
      · rw [extractUrlsLoop_skip _ v rest hu]
        exact he
      · intro u hu2
        rcases hsub u hu2 with h | h
        · exact Or.inl h
        · right
          rw [entryUrls_cons, hu]
          simpa using h
      · intro u hu2
        refine hcover u ?_
        rw [entryUrls_cons, hu] at hu2
        simpa using hu2
    | some u =>
      obtain ⟨vfs, hv⟩ : ∃ vfs, v = JVal.obj vfs := by
        cases v <;> simp [entryUrlOpt] at hu ⊢
      subst hv
      have hu2 : lookupLast vfs "url" = some u := by
        simpa [entryUrlOpt] using hu
      have hurls : entryUrls (JVal.obj vfs :: rest) = u :: entryUrls rest := by
        rw [entryUrls_cons, hu]
        rfl
      have hhu : isHashable u = true := hhash u (by rw [hurls]; simp)
      have hrest : ∀ u2 ∈ entryUrls rest, isHashable u2 = true := by
        intro u2 h2
        exact hhash u2 (by rw [hurls]; simp [h2])
      have hstep : extractUrlsLoop acc (JVal.obj vfs :: rest) =
          extractUrlsLoop (setAdd acc u) rest := by
        simp [extractUrlsLoop, hu2, hhu]
      obtain ⟨us, he, hsub, hacc, hcover⟩ := ih (setAdd acc u) hrest
      refine ⟨us, by rw [hstep]; exact he, ?_, ?_, ?_⟩
      · intro x hx
        rcases hsub x hx with h | h
        · rw [setAdd] at h
          by_cases hm : setMem acc u = true
          · rw [if_pos hm] at h
            exact Or.inl h
          · rw [if_neg (by simp [hm]), List.mem_append] at h
            rcases h with h | h
            · exact Or.inl h
            · right
              rw [hurls]
              simp at h
              simp [h]
        · right
          rw [hurls]
          simp [h]
      · intro a ha
        refine hacc a ?_
        rw [setAdd]
        by_cases hm : setMem acc u = true
        · rw [if_pos hm]
          exact ha
        · rw [if_neg (by simp [hm])]
          exact List.mem_append_left _ ha
      · intro x hx
        rw [hurls] at hx
        rcases List.mem_cons.mp hx with heq | hx2
        · subst heq
          by_cases hm : setMem acc x = true
          · obtain ⟨a, ha, hpe⟩ := List.any_eq_true.mp hm
            have ha2 : a ∈ setAdd acc x := by
              rw [setAdd, if_pos hm]
              exact ha
            exact ⟨a, hacc a ha2, hpe⟩
          · have hin : x ∈ setAdd acc x := by
              rw [setAdd, if_neg (by simp [hm])]
              exact List.mem_append_right _ (by simp)
            exact ⟨x, hacc x hin, pyEqScalar_refl x hhu⟩
        · exact hcover x hx2

theorem extract_urls_strs (d : JVal) (fs : List (String × JVal)) (vids : List JVal)
    (hd : d = .obj fs) (hv : lookupLast fs "videos" = some (.arr vids))
    (hstr : ∀ u ∈ entryUrls vids, ∃ t, u = JVal.str t) :
    ∃ ss : List String, extract_urls d = .ok (ss.map JVal.str) ∧ ss.Nodup ∧
      ss.toFinset = urlSet d := by
  subst hd
  have hany : (fs.any fun p => p.1 == "videos") = true := by
    rw [lookupLast_any, hv]
    rfl
  obtain ⟨ss2, he, hnd2, hfin⟩ := extractUrlsLoop_strs vids [] List.nodup_nil hstr
  refine ⟨ss2, ?_, hnd2, ?_⟩
  · simpa [extract_urls, pyContains, hany, pySubscript, hv] using he
  · rw [hfin]
    simp [urlSet, collectionUrls, videosList, hv]

theorem insertionSort_eq_sort_toFinset (ss : List String) (hnd : ss.Nodup) :
    List.insertionSort (fun a b => a ≤ b) ss =
      Finset.sort (fun a b => a ≤ b) ss.toFinset := by
  have hperm : List.Perm (List.insertionSort (fun a b => a ≤ b) ss)
      (Finset.sort (fun a b => a ≤ b) ss.toFinset) := by
    refine List.perm_of_nodup_nodup_toFinset_eq ?_ (Finset.sort_nodup _ _) ?_
    · exact ((List.perm_insertionSort _ ss).nodup_iff).mpr hnd
    · rw [List.toFinset_eq_of_perm _ _ (List.perm_insertionSort _ ss),
        Finset.sort_toFinset]
  exact List.eq_of_perm_of_sorted hperm (List.sorted_insertionSort _ ss)
    (Finset.sort_sorted _ _)

theorem all_isStrV_map (ss : List String) : (ss.map JVal.str).all isStrV = true := by
  induction ss with
  | nil => rfl
  | cons a rest ih => simp [List.all_cons, isStrV, ih]

theorem pySorted_map_str (ss : List String) (hnd : ss.Nodup) :
    pySorted (ss.map JVal.str) =
      .ok ((Finset.sort (fun a b => a ≤ b) ss.toFinset).map JVal.str) := by
  rcases ss with _ | ⟨a, _ | ⟨b, rest⟩⟩
  · simp [pySorted]
  · simp [pySorted, Finset.sort_singleton]
  · have hlen : ¬ ((a :: b :: rest).map JVal.str).length ≤ 1 := by simp
    rw [pySorted, if_neg hlen, if_pos (all_isStrV_map (a :: b :: rest)), strVals_map_str,
      insertionSort_eq_sort_toFinset _ hnd]

theorem find_url_differences_spec (d1 d2 : JVal)
    (fs1 fs2 : List (String × JVal)) (vids1 vids2 : List JVal)
    (h1 : d1 = JVal.obj fs1) (hv1 : lookupLast fs1 "videos" = some (.arr vids1))
    (hstr1 : ∀ u ∈ entryUrls vids1, ∃ t, u = JVal.str t)
    (h2 : d2 = JVal.obj fs2) (hv2 : lookupLast fs2 "videos" = some (.arr vids2))
    (hstr2 : ∀ u ∈ entryUrls vids2, ∃ t, u = JVal.str t) :
    find_url_differences d1 d2 = .ok
      { only_in_file1 := sortedStrUrls (urlSet d1 \ urlSet d2)
        only_in_file2 := sortedStrUrls (urlSet d2 \ urlSet d1)
        common_urls := sortedStrUrls (urlSet d1 ∩ urlSet d2)
        file1_count := (urlSet d1).card
        file2_count := (urlSet d2).card
        common_count := (urlSet d1 ∩ urlSet d2).card } := by
  obtain ⟨ss1, he1, hnd1, hfin1⟩ := extract_urls_strs d1 fs1 vids1 h1 hv1 hstr1
  obtain ⟨ss2, he2, hnd2, hfin2⟩ := extract_urls_strs d2 fs2 vids2 h2 hv2 hstr2
  have hf1 : (ss1.map JVal.str).filter (fun u => !(setMem (ss2.map JVal.str) u)) =
      (ss1.filter fun s => !(decide (s ∈ ss2))).map JVal.str :=
    filter_map_str_pred ss1 _ _ fun s => by rw [setMem_map_str]
  have hf2 : (ss2.map JVal.str).filter (fun u => !(setMem (ss1.map JVal.str) u)) =
      (ss2.filter fun s => !(decide (s ∈ ss1))).map JVal.str :=
    filter_map_str_pred ss2 _ _ fun s => by rw [setMem_map_str]
  have hfc : (ss1.map JVal.str).filter (fun u => setMem (ss2.map JVal.str) u) =
      (ss1.filter fun s => decide (s ∈ ss2)).map JVal.str :=
    filter_map_str_pred ss1 _ _ fun s => by rw [setMem_map_str]
  have hc1 : (urlSet d1).card = ss1.length := by
    rw [← hfin1, List.toFinset_card_of_nodup hnd1]
  have hc2 : (urlSet d2).card = ss2.length := by
    rw [← hfin2, List.toFinset_card_of_nodup hnd2]
  have hcc : (urlSet d1 ∩ urlSet d2).card =
      (ss1.filter fun s => decide (s ∈ ss2)).length := by
    rw [← hfin1, ← hfin2, ← filter_toFinset_inter,
      List.toFinset_card_of_nodup (List.Nodup.filter _ hnd1)]
  rw [find_url_differences]
  simp only [he1, he2, hf1, hf2, hfc,
    pySorted_map_str (ss1.filter fun s => !(decide (s ∈ ss2))) (List.Nodup.filter _ hnd1),
    pySorted_map_str (ss2.filter fun s => !(decide (s ∈ ss1))) (List.Nodup.filter _ hnd2),
    pySorted_map_str (ss1.filter fun s => decide (s ∈ ss2)) (List.Nodup.filter _ hnd1),
    sortedStrUrls, filter_toFinset_sdiff, filter_toFinset_inter, hfin1, hfin2,
    hc1, hc2, hcc, List.length_map]

theorem isVideoCollection_spec (d : JVal) (h : isVideoCollection d = true) :
    ∃ fs vids, d = JVal.obj fs ∧ lookupLast fs "videos" = some (.arr vids) ∧
      ∀ u ∈ entryUrls vids, ∃ t, u = JVal.str t := by
  cases d with
  | null => cases h
  | bool b => cases h
  | num n => cases h
  | str s => cases h
  | arr xs => cases h
  | obj fs =>
    rw [isVideoCollection] at h
    cases hv : lookupLast fs "videos" with
    | none => rw [hv] at h; cases h
    | some v =>
      rw [hv] at h
      cases v with
      | arr vids =>
        refine ⟨fs, vids, rfl, hv, ?_⟩
        intro u hu
        obtain ⟨v, hvmem, hvu⟩ := List.mem_filterMap.mp hu
        have hp := (List.all_eq_true.mp h) v hvmem
        cases v with
        | null => exact absurd hvu (by simp [entryUrlOpt])
        | bool b => exact absurd hvu (by simp [entryUrlOpt])
        | num n => exact absurd hvu (by simp [entryUrlOpt])
        | str s => exact absurd hvu (by simp [entryUrlOpt])
        | arr xs => exact absurd hvu (by simp [entryUrlOpt])
        | obj vfs =>
          simp only [entryUrlOpt] at hvu
          cases hl : lookupLast vfs "url" with
          | none => rw [hl] at hvu; cases hvu
          | some u2 =>
            rw [hl] at hvu
            injection hvu with hvu
            subst hvu
            simp only [hl] at hp
            cases u2 with
            | str t => exact ⟨t, rfl⟩
            | null => simp at hp
            | bool b => simp at hp
            | num n => simp at hp
            | arr xs => simp at hp
            | obj ofs => simp at hp
      | null => cases h
      | bool b => cases h
      | num n => cases h
      | str s => cases h
      | obj ofs => cases h

/-- C1: for every pair of well-formed VideoCollection inputs with url
sets A and B, find_url_differences reports only_in_file1 as A minus B,
only_in_file2 as B minus A and common as the intersection of A and B,
each as a duplicate-free sequence sorted lexicographically ascending,
and the three counts equal the cardinalities of the deduplicated sets
rather than the original collection lengths. -/
theorem C1_diff_report_sorted_sets (d1 d2 : JVal)
    (h1 : isVideoCollection d1 = true) (h2 : isVideoCollection d2 = true) :
    ∃ r, find_url_differences d1 d2 = .ok r ∧
      (∃ l : List String, r.only_in_file1 = l.map JVal.str ∧
        l.Sorted (· ≤ ·) ∧ l.Nodup ∧ l.toFinset = urlSet d1 \ urlSet d2) ∧
      (∃ l : List String, r.only_in_file2 = l.map JVal.str ∧
        l.Sorted (· ≤ ·) ∧ l.Nodup ∧ l.toFinset = urlSet d2 \ urlSet d1) ∧
      (∃ l : List String, r.common_urls = l.map JVal.str ∧
        l.Sorted (· ≤ ·) ∧ l.Nodup ∧ l.toFinset = urlSet d1 ∩ urlSet d2) ∧
      r.file1_count = (urlSet d1).card ∧
      r.file2_count = (urlSet d2).card ∧
      r.common_count = (urlSet d1 ∩ urlSet d2).card := by
  obtain ⟨fs1, vids1, hd1, hv1, hstr1⟩ := isVideoCollection_spec d1 h1
  obtain ⟨fs2, vids2, hd2, hv2, hstr2⟩ := isVideoCollection_spec d2 h2
  refine ⟨_,
    find_url_differences_spec d1 d2 fs1 fs2 vids1 vids2 hd1 hv1 hstr1 hd2 hv2 hstr2,
    ⟨_, rfl, Finset.sort_sorted _ _, Finset.sort_nodup _ _, Finset.sort_toFinset _ _⟩,
    ⟨_, rfl, Finset.sort_sorted _ _, Finset.sort_nodup _ _, Finset.sort_toFinset _ _⟩,
    ⟨_, rfl, Finset.sort_sorted _ _, Finset.sort_nodup _ _, Finset.sort_toFinset _ _⟩,
    rfl, rfl, rfl⟩

/-- C7: the diff is symmetric up to swapping roles: for well-formed
collections, diff of (A, B) and diff of (B, A) both succeed, with equal
common sequences, and only_in_file1 of the first report equals
only_in_file2 of the second report. -/
theorem C7_diff_symmetric (d1 d2 : JVal)
    (h1 : isVideoCollection d1 = true) (h2 : isVideoCollection d2 = true) :
    ∃ r r2, find_url_differences d1 d2 = .ok r ∧ find_url_differences d2 d1 = .ok r2 ∧
      r.common_urls = r2.common_urls ∧ r.only_in_file1 = r2.only_in_file2 := by
  obtain ⟨fs1, vids1, hd1, hv1, hstr1⟩ := isVideoCollection_spec d1 h1
  obtain ⟨fs2, vids2, hd2, hv2, hstr2⟩ := isVideoCollection_spec d2 h2
  refine ⟨_, _,
    find_url_differences_spec d1 d2 fs1 fs2 vids1 vids2 hd1 hv1 hstr1 hd2 hv2 hstr2,
    find_url_differences_spec d2 d1 fs2 fs1 vids2 vids1 hd2 hv2 hstr2 hd1 hv1 hstr1,
    ?_, rfl⟩
  rw [Finset.inter_comm]

/-- C10 counterexample: the number 0 is a syntactically valid JSON
document, but extract_urls raises a TypeError on it (the membership
test videos in 0 is undefined for numbers) instead of treating it
like a value without a videos key and returning the empty set. -/
theorem C10_nonmapping_raises_counterexample :
    extract_urls (JVal.num 0) = .error () := rfl

/-- C10 amended: for JSON inputs whose top level is a mapping,
extract_urls is total as long as every url value it meets is hashable:
with no videos key, or a videos value that is not a list, the result
is the empty set; entries that are not mappings or lack a url key are
silently skipped, the set holding exactly the url values of the
remaining entries; and two such inputs with string urls produce a
normal report from find_url_differences rather than a fatal error. -/
theorem C10_structurally_wrong_is_tolerated :
    (∀ fs : List (String × JVal),
      (∀ l, lookupLast fs "videos" ≠ some (JVal.arr l)) →
      extract_urls (JVal.obj fs) = .ok []) ∧
    (∀ (fs : List (String × JVal)) (vids : List JVal),
      lookupLast fs "videos" = some (JVal.arr vids) →
      (∀ u ∈ entryUrls vids, isHashable u = true) →
      ∃ us, extract_urls (JVal.obj fs) = .ok us ∧
        (∀ u ∈ us, u ∈ entryUrls vids) ∧
        (∀ u ∈ entryUrls vids, ∃ u2 ∈ us, pyEqScalar u2 u = true)) ∧
    (∀ (d1 d2 : JVal) (fs1 fs2 : List (String × JVal)) (vids1 vids2 : List JVal),
      d1 = JVal.obj fs1 → lookupLast fs1 "videos" = some (JVal.arr vids1) →
      (∀ u ∈ entryUrls vids1, ∃ t, u = JVal.str t) →
      d2 = JVal.obj fs2 → lookupLast fs2 "videos" = some (JVal.arr vids2) →
      (∀ u ∈ entryUrls vids2, ∃ t, u = JVal.str t) →
      ∃ r, find_url_differences d1 d2 = .ok r) := by
  refine ⟨?_, ?_, ?_⟩
  · intro fs hno
    cases hv : lookupLast fs "videos" with
    | none =>
      have hany : (fs.any fun p => p.1 == "videos") = false := by
        rw [lookupLast_any, hv]
        rfl
      simp [extract_urls, pyContains, hany]
    | some v =>
      have hany : (fs.any fun p => p.1 == "videos") = true := by
        rw [lookupLast_any, hv]
        rfl
      cases v with
      | arr l => exact absurd hv (hno l)
      | null => simp [extract_urls, pyContains, hany, pySubscript, hv]
      | bool b => simp [extract_urls, pyContains, hany, pySubscript, hv]
      | num n => simp [extract_urls, pyContains, hany, pySubscript, hv]
      | str s => simp [extract_urls, pyContains, hany, pySubscript, hv]
      | obj ofs => simp [extract_urls, pyContains, hany, pySubscript, hv]
  · intro fs vids hv hhash
    have hany : (fs.any fun p => p.1 == "videos") = true := by
      rw [lookupLast_any, hv]
      rfl
    obtain ⟨us, he, hsub, _, hcover⟩ := extractUrlsLoop_hashable vids [] hhash
    refine ⟨us, ?_, ?_, hcover⟩
    · simpa [extract_urls, pyContains, hany, pySubscript, hv] using he
    · intro u hu
      rcases hsub u hu with h | h
      · exact absurd h (List.not_mem_nil u)
      · exact h
  · intro d1 d2 fs1 fs2 vids1 vids2 h1 hv1 hstr1 h2 hv2 hstr2
    exact ⟨_,
      find_url_differences_spec d1 d2 fs1 fs2 vids1 vids2 h1 hv1 hstr1 h2 hv2 hstr2⟩

/-- C1 witness: the sample collections are well-formed and the report
exists with set-cardinality counts. -/
theorem C1_diff_report_sorted_sets_witness :
    isVideoCollection sampleColl1 = true ∧ isVideoCollection sampleColl2 = true ∧
    ∃ r, find_url_differences sampleColl1 sampleColl2 = .ok r ∧
      r.file1_count = (urlSet sampleColl1).card ∧
      r.common_count = (urlSet sampleColl1 ∩ urlSet sampleColl2).card := by
  refine ⟨by decide, by decide, ?_⟩
  obtain ⟨r, hr, _, _, _, hc1, _, hcc⟩ :=
    C1_diff_report_sorted_sets sampleColl1 sampleColl2 (by decide) (by decide)
  exact ⟨r, hr, hc1, hcc⟩

/-- C7 witness: both orders of the sample collections succeed, with
common equal and the sides swapped. -/
theorem C7_diff_symmetric_witness :
    isVideoCollection sampleColl1 = true ∧ isVideoCollection sampleColl2 = true ∧
    ∃ r r2, find_url_differences sampleColl1 sampleColl2 = .ok r ∧
      find_url_differences sampleColl2 sampleColl1 = .ok r2 ∧
      r.common_urls = r2.common_urls ∧ r.only_in_file1 = r2.only_in_file2 :=
  ⟨by decide, by decide,
    C7_diff_symmetric sampleColl1 sampleColl2 (by decide) (by decide)⟩

/-- C10 witness: a mapping without a videos key gives the empty set, a
mixed videos list with hashable urls gives exactly its entry urls, and
two string-url collections give a normal report. -/
theorem C10_structurally_wrong_is_tolerated_witness :
    extract_urls noVideosObj = .ok [] ∧
    (∃ us, extract_urls mixedVideosObj = .ok us ∧
      (∀ u ∈ us, u ∈ entryUrls mixedVideosList) ∧
      (∀ u ∈ entryUrls mixedVideosList, ∃ u2 ∈ us, pyEqScalar u2 u = true)) ∧
    (∃ r, find_url_differences sampleColl1 sampleColl2 = .ok r) := by
  have hstr1 : ∀ u ∈ entryUrls
      [JVal.obj [("url", JVal.str "A")], JVal.obj [("url", JVal.str "B")]],
      ∃ t, u = JVal.str t := by
    intro u hu
    simp [entryUrls, entryUrlOpt, List.filterMap_cons, lookupLast] at hu
    rcases hu with rfl | rfl
    · exact ⟨"A", rfl⟩
    · exact ⟨"B", rfl⟩
  have hstr2 : ∀ u ∈ entryUrls
      [JVal.obj [("url", JVal.str "B")], JVal.obj [("url", JVal.str "C")]],
      ∃ t, u = JVal.str t := by
    intro u hu
    simp [entryUrls, entryUrlOpt, List.filterMap_cons, lookupLast] at hu
    rcases hu with rfl | rfl
    · exact ⟨"B", rfl⟩
    · exact ⟨"C", rfl⟩
  refine ⟨?_, ?_, ?_⟩
  · refine C10_structurally_wrong_is_tolerated.1 [("other", JVal.null)] ?_
    intro l h
    rw [show lookupLast [("other", JVal.null)] "videos" = none from rfl] at h
    cases h
  · refine C10_structurally_wrong_is_tolerated.2.1 _ mixedVideosList rfl ?_
    intro u hu
    have hu2 : u = JVal.str "A" := by
      simpa [mixedVideosList, entryUrls, entryUrlOpt, List.filterMap_cons,
        lookupLast] using hu
    subst hu2
    rfl
  · exact C10_structurally_wrong_is_tolerated.2.2 sampleColl1 sampleColl2 _ _ _ _
      rfl rfl hstr1 rfl rfl hstr2
